import Mathlib

/-!
Verification of the clip-generation and metadata pipeline of the
RellingAssignment repository, as a shallow embedding in Lean 4.

Shallow-embedding conventions used throughout this file:

* JavaScript numbers are modelled as rationals.  Every use of the JS
  number conversion in the modelled code is immediately guarded by an
  isFinite check, so the conversion is modelled jointly with that check
  as a function returning an optional rational, with the NaN and
  infinite outcomes both mapped to the absent value.
* SQLite rows are modelled as Lean structures; the clips table is a list
  of rows keyed by clip index, so the upsert mirrors the ON CONFLICT
  UPDATE statement of queries.ts.
* The filesystem seen by the pipeline is modelled as an association list
  from clip index to file byte size, since the pipeline itself only ever
  creates files at the canonical path clip_NNN.mp4 (paths.ts, clipPath).
* External effects (status reads, ffmpeg exit codes, ffprobe results)
  are supplied by an environment record, one entry per segment index.
* Code that can throw is modelled so that the thrown path returns the
  state reached so far, since database writes already performed persist
  when a JS exception propagates.
-/

namespace Relling

/-- Video status column of the videos table (db/queries.ts). -/
inductive VideoStatus
  | Pending
  | Approved
  | Rejected
deriving DecidableEq

/-- Status string as stored in the database, used in messages. -/
def VideoStatus.name : VideoStatus → String
  | .Pending => "Pending"
  | .Approved => "Approved"
  | .Rejected => "Rejected"

/-- Job state column of the clip_jobs table (db/queries.ts). -/
inductive JobStateKind
  | NotStarted
  | Generating
  | Done
  | Failed
deriving DecidableEq

/-! ### JS number conversion, modelled jointly with the isFinite guard

The sources (videoMetadata.ts) only ever use the result of the JS
Number conversion after checking Number.isFinite, so the two are
modelled together: the result is none exactly when the conversion gives
NaN or an infinity.  Decimal numerals (optional sign, digits, optional
fractional part, surrounding whitespace, empty string meaning zero) are
modelled exactly; exotic numeral forms (hex, exponent notation) are
mapped to the absent value. -/

/-- Value of a list of decimal digit characters. -/
def digitsVal (cs : List Char) : ℕ :=
  cs.foldl (fun a c => 10 * a + (c.toNat - 48)) 0

/-- Parse an unsigned decimal numeral: digits, digits.digits, .digits
or digits. (trailing dot), as accepted by the JS Number conversion. -/
def parseUnsignedDec (cs : List Char) : Option ℚ :=
  let intPart := cs.takeWhile Char.isDigit
  let rest := cs.dropWhile Char.isDigit
  match rest with
  | [] => if intPart.isEmpty then none else some (digitsVal intPart)
  | '.' :: frac =>
      if frac.all Char.isDigit ∧ ¬ (intPart.isEmpty ∧ frac.isEmpty) then
        some ((digitsVal intPart : ℚ) + (digitsVal frac : ℚ) / (10 ^ frac.length))
      else none
  | _ => none

/-- JS Number conversion of a character list followed by the isFinite
check: some value when the text converts to a finite number, none when
it converts to NaN or an infinity. -/
def jsFiniteNumberL (l : List Char) : Option ℚ :=
  let cs := l.dropWhile Char.isWhitespace
  let cs := (cs.reverse.dropWhile Char.isWhitespace).reverse
  match cs with
  | [] => some 0
  | '-' :: rest => (parseUnsignedDec rest).map (fun q => -q)
  | '+' :: rest => parseUnsignedDec rest
  | _ => parseUnsignedDec cs

/-- JS Number conversion of a string followed by the isFinite check. -/
def jsFiniteNumber (s : String) : Option ℚ :=
  jsFiniteNumberL s.toList

/-- Split a character list on the slash character, keeping empty
components, as the JS string split with a slash separator does. -/
def splitSlash : List Char → List (List Char)
  | [] => [[]]
  | c :: rest =>
    let r := splitSlash rest
    if c = '/' then [] :: r
    else
      match r with
      | [] => [[c]]
      | h :: t => (c :: h) :: t

/-- Model of parseFraction (videoMetadata.ts lines 74 to 87): reject an
absent or empty input; split on the slash; with exactly two components
accept numerator and denominator only when both are finite and the
denominator is nonzero, and keep the quotient only when it is positive;
with any other number of components convert the whole string. -/
def parseFraction (fr : Option String) : Option ℚ :=
  match fr with
  | none => none
  | some s =>
    if s = "" then none
    else
      match splitSlash s.toList with
      | [p, q] =>
        match jsFiniteNumberL p, jsFiniteNumberL q with
        | some num, some den =>
          if den = 0 then none
          else
            let val := num / den
            if 0 < val then some val else none
        | _, _ => none
      | _ => jsFiniteNumberL s.toList

/-- Model of the fps derivation of extractVideoMetadata
(videoMetadata.ts lines 179 to 182): prefer the real frame-rate
expression, fall back to the average frame-rate expression. -/
def fpsOf (r avg : Option String) : Option ℚ :=
  match parseFraction r with
  | some v => some v
  | none => parseFraction avg

/-! ### Clip rows and the upsert of queries.ts -/

/-- Metadata record produced by extractVideoMetadata for one clip file;
only the fields the pipeline persists into clip rows are modelled, each
independently absent when extraction partially fails. -/
structure ClipMeta where
  duration_seconds : Option ℚ
  fps : Option ℚ
  width : Option ℤ
  height : Option ℤ
  file_size_bytes : Option ℕ
deriving DecidableEq

/-- Row of the clips table for one video (db/queries.ts); the video id
is implicit because every state in this file concerns a single video. -/
structure ClipRow where
  clip_index : ℕ
  duration : Option ℚ
  fps : Option ℚ
  width : Option ℤ
  height : Option ℤ
  file_size_bytes : Option ℕ
deriving DecidableEq

/-- Model of upsertClip (queries.ts): INSERT with ON CONFLICT on the
key (video_id, clip_index) DO UPDATE of every data column. -/
def upsertClip (rows : List ClipRow) (r : ClipRow) : List ClipRow :=
  if rows.any (fun x => x.clip_index = r.clip_index) then
    rows.map (fun x => if x.clip_index = r.clip_index then r else x)
  else
    rows ++ [r]

/-- Clip row built from extracted metadata plus the separately statted
file size, as assembled at the upsertClip call sites of clipPipeline.ts
and clipMetadataBackfill.ts. -/
def rowOfMeta (i : ℕ) (m : ClipMeta) (sz : Option ℕ) : ClipRow :=
  { clip_index := i
    duration := m.duration_seconds
    fps := m.fps
    width := m.width
    height := m.height
    file_size_bytes := sz }

/-! ### Backfill scanner (clipMetadataBackfill.ts)

The directory listing is an input: getClipsDir (paths.ts) creates the
clips directory recursively before the listing, so a missing directory
is read as an empty listing rather than an exception.  A directory
entry carries its name and the outcome of statSync on it, with the
absent outcome meaning statSync threw (unreadable file).  The metadata
extraction is a parameter returning either a metadata record or the
thrown outcome; on a throw the scan aborts, keeping the rows already
upserted, and no counts are returned. -/

/-- stat outcome for one directory entry. -/
structure FileStat where
  isFile : Bool
  size : ℕ
deriving DecidableEq

/-- One entry of the clips directory listing; stat is none when
statSync throws for this entry. -/
structure DirEntry where
  name : String
  stat : Option FileStat
deriving DecidableEq

/-- Counts returned by the backfill scan. -/
structure BackfillCounts where
  scanned : ℕ
  upserted : ℕ
deriving DecidableEq

/-- Model of parseClipIndex (clipMetadataBackfill.ts): the filename
must match clip_ followed by exactly three decimal digits followed by
.mp4, and the index is the value of the three digits. -/
def parseClipIndex (filename : String) : Option ℕ :=
  match filename.toList with
  | ['c', 'l', 'i', 'p', '_', d1, d2, d3, '.', 'm', 'p', '4'] =>
    if d1.isDigit ∧ d2.isDigit ∧ d3.isDigit then
      some (digitsVal [d1, d2, d3])
    else none
  | _ => none

/-- Loop body of backfillClipMetadata over the remaining directory
entries, carrying the rows and the two counters.  A none first
component of the result means metadata extraction threw and the scan
aborted; the rows upserted before the abort are kept. -/
def backfillGo (probe : String → Option ClipMeta) :
    List DirEntry → List ClipRow → ℕ → ℕ → Option BackfillCounts × List ClipRow
  | [], rows, sc, up => (some ⟨sc, up⟩, rows)
  | e :: rest, rows, sc, up =>
    match parseClipIndex e.name with
    | none => backfillGo probe rest rows sc up
    | some idx =>
      match e.stat with
      | none => backfillGo probe rest rows sc up
      | some st =>
        if ¬ st.isFile ∨ st.size ≤ 1024 then
          backfillGo probe rest rows sc up
        else
          match probe e.name with
          | none => (none, rows)
          | some m =>
            backfillGo probe rest
              (upsertClip rows (rowOfMeta idx m (some st.size))) (sc + 1) (up + 1)

/-- Model of backfillClipMetadata (clipMetadataBackfill.ts lines 15 to
62): scan the directory listing, skip entries with a non-matching name,
a throwing stat, a non-file stat or a size at or below 1024 bytes, and
upsert one row per remaining entry keyed by the parsed index. -/
def backfillClipMetadata (probe : String → Option ClipMeta)
    (entries : List DirEntry) (rows : List ClipRow) :
    Option BackfillCounts × List ClipRow :=
  backfillGo probe entries rows 0 0

/-! ### Duration resolver (duration.ts) -/

/-- Parse state of the stored metadata_json column as seen by
getDurationSeconds: absent models a NULL column; unparseable models a
JSON parse failure or a duration field whose number conversion is not
finite; dur d models a finite converted duration value d (d is 0 for a
stored null duration, since the JS number conversion of null is 0). -/
inductive CachedMeta
  | absent
  | unparseable
  | dur (d : ℚ)
deriving DecidableEq

/-- Metadata record returned by a fresh probe, restricted to the fields
getDurationSeconds uses.  parseDurationSeconds (videoMetadata.ts)
guarantees a present duration is finite and nonnegative. -/
structure ProbedMeta where
  duration_seconds : Option ℚ
  rotation_raw : Option String
deriving DecidableEq

/-- The metadata store slice for one video: the parse state of its
metadata_json column plus a count of saveVideoMetadata writes, so that
theorems can speak about the store having been written. -/
structure MetaStore where
  metadata : CachedMeta
  writes : ℕ
deriving DecidableEq

/-- Duration the cached metadata yields: the stored finite duration
when it is positive, nothing otherwise (duration.ts lines 240 to 248). -/
def cachedDuration : CachedMeta → Option ℚ
  | .dur d => if 0 < d then some d else none
  | _ => none

/-- Parse state of the metadata_json column after saveVideoMetadata
stores the stringified probe result: re-reading it parses, and the
number conversion of a stored null duration gives 0. -/
def storedMeta (m : ProbedMeta) : CachedMeta :=
  .dur (m.duration_seconds.getD 0)

/-- Failure modes of the duration resolver: the probe itself threw, or
the probe succeeded but yielded no positive duration (the throw at
duration.ts line 255). -/
inductive DurationError
  | probeFailed
  | durationUnknown
deriving DecidableEq

/-- Model of getDurationSeconds (duration.ts lines 236 to 258): return
the cached duration when it is finite and positive; otherwise run the
probe (none models a thrown probe), persist a successful probe result
before validating it, and fail with durationUnknown when the probed
duration is absent or not positive. -/
def getDurationSeconds (store : MetaStore) (probe : Option ProbedMeta) :
    Except DurationError ℚ × MetaStore :=
  match cachedDuration store.metadata with
  | some d => (Except.ok d, store)
  | none =>
    match probe with
    | none => (Except.error .probeFailed, store)
    | some m =>
      let store' : MetaStore := { metadata := storedMeta m, writes := store.writes + 1 }
      match m.duration_seconds with
      | none => (Except.error .durationUnknown, store')
      | some d =>
        if d ≤ 0 then (Except.error .durationUnknown, store')
        else (Except.ok d, store')

/-! ### Command runner (utils/runCommand.ts)

The child process is modelled by its observable behavior: the stdout
and stderr chunks delivered to the data handlers, the code argument of
the close event (none models a null code, as delivered after a kill by
signal), and the time from spawn until the close event would fire
naturally.  The promise executor registers only data and close
handlers and only ever resolves, so the model is a total function. -/

/-- Resolved value of runCommand. -/
structure CommandResult where
  exitCode : ℤ
  stdout : String
  stderr : String
deriving DecidableEq

/-- Observable behavior of one spawned child process. -/
structure ChildBehavior where
  stdoutChunks : List String
  stderrChunks : List String
  closeCode : Option ℤ
  lifetimeMs : ℕ
deriving DecidableEq

/-- Whether the timeout timer is armed: the option must be present and
nonzero, because the JS conditional treats a zero timeout as falsy. -/
def timerArmed : Option ℕ → Bool
  | none => false
  | some t => t ≠ 0

/-- Whether the timer fires before the natural close: the armed timer
duration elapses strictly before the child would close on its own
(close first clears the timer). -/
def killedByTimeout (timeoutMs : Option ℕ) (b : ChildBehavior) : Bool :=
  match timeoutMs with
  | none => false
  | some t => timerArmed (some t) && t < b.lifetimeMs

/-- Model of runCommand (utils/runCommand.ts lines 10 to 44): resolve
with the concatenated captured output and an exit code that is 124
after a timeout kill, the close code otherwise, defaulting to 1 for a
null close code. -/
def runCommand (b : ChildBehavior) (timeoutMs : Option ℕ) : CommandResult :=
  { exitCode := if killedByTimeout timeoutMs b then 124 else b.closeCode.getD 1
    stdout := String.join b.stdoutChunks
    stderr := String.join b.stderrChunks }

/-! ### Stale job recovery (recovery.ts) -/

/-- Row of the clip_jobs table as read by the recovery sweep; the
updated_at column is the Date.parse of the stored timestamp, none when
that parse is not finite. -/
structure ClipJobRow where
  state : JobStateKind
  last_stderr : Option String
  last_exit_code : Option ℤ
  updated_at : Option ℤ
deriving DecidableEq

/-- Staleness window in milliseconds (recovery.ts line 3). -/
def STALE_MS : ℤ := 10 * 60 * 1000

/-- Message written by the recovery sweep when it reaps a stale job. -/
def staleMsg : String :=
  "Recovery: job was Generating but stale for > 10 minutes."

/-- Per-job body of recoverStaleJobs (recovery.ts lines 13 to 21): a
Generating job whose parsed updated_at is finite and strictly older
than the window is overwritten with a Failed record stamped now; any
other job is left untouched. -/
def recoverJob (now : ℤ) (job : ClipJobRow) : ClipJobRow :=
  if job.state = .Generating then
    match job.updated_at with
    | some updated =>
      if STALE_MS < now - updated then
        { state := .Failed
          last_stderr := some staleMsg
          last_exit_code := none
          updated_at := some now }
      else job
    | none => job
  else job

/-- Model of recoverStaleJobs (recovery.ts): for every known video,
apply the per-job body to its job row when one exists. -/
def recoverStaleJobs (now : ℤ) (jobs : List (Option ClipJobRow)) :
    List (Option ClipJobRow) :=
  jobs.map (Option.map (recoverJob now))

/-! ### Clip segmenter (clipPipeline.ts)

One segmenter run for one video is modelled as a function of an
environment (the externally determined outcomes, indexed by segment)
and a state (the filesystem slice, the clip rows, the job row and the
error column for this video).  The filesystem slice is an association
list from clip index to byte size, since every path the run touches is
the canonical clipPath of an index.  The ghost field ffmpegCalls
records each ffmpeg invocation with the length argument passed to it;
it models the observable transcoding work rather than any stored
data. -/

/-- Externally determined outcomes of one segmenter run, indexed by
segment: the video status read at each loop boundary, whether the
ffmpeg invocation for a segment exits zero, its exit code otherwise,
the byte size of a freshly transcoded output file, the metadata
extraction result for the clip file at an index, and whether that
extraction succeeds (false models a thrown ProbeError). -/
structure SegEnv where
  statusAt : ℕ → VideoStatus
  transcodeOk : ℕ → Bool
  transcodeExit : ℕ → ℤ
  outSize : ℕ → ℕ
  clipMeta : ℕ → ClipMeta
  probeOk : ℕ → Bool

/-- Job row of this video as written by the segmenter (updated_at is
modelled only in the recovery component, which reads it). -/
structure JobRecord where
  state : JobStateKind
  last_stderr : Option String
  last_exit_code : Option ℤ
deriving DecidableEq

/-- State of one video as seen and mutated by a segmenter run. -/
structure PipeState where
  files : List (ℕ × ℕ)
  rows : List ClipRow
  job : Option JobRecord
  videoError : Option String
  ffmpegCalls : List (ℕ × ℚ)
deriving DecidableEq

/-- Model of setClipJobState for this video (queries.ts): upsert the
single job row. -/
def setJob (s : PipeState) (k : JobStateKind) (err : Option String)
    (code : Option ℤ) : PipeState :=
  { s with job := some ⟨k, err, code⟩ }

/-- Model of fileLooksComplete (clipPipeline.ts lines 16 to 24): the
file exists and is larger than 1024 bytes; a throwing stat reads as
incomplete. -/
def fileLooksComplete (files : List (ℕ × ℕ)) (i : ℕ) : Bool :=
  match files.lookup i with
  | some sz => decide (1024 < sz)
  | none => false

/-- Write a file of the given size at index i, replacing any previous
file there. -/
def fsSet (files : List (ℕ × ℕ)) (i : ℕ) (sz : ℕ) : List (ℕ × ℕ) :=
  if files.any (fun p => p.1 = i) then
    files.map (fun p => if p.1 = i then (i, sz) else p)
  else
    files ++ [(i, sz)]

/-- Model of safeUnlink at index i: remove the file if present. -/
def fsErase (files : List (ℕ × ℕ)) (i : ℕ) : List (ℕ × ℕ) :=
  files.filter (fun p => decide (p.1 ≠ i))

/-- Length passed to ffmpeg for segment i of a video of duration D
(clipPipeline.ts lines 71 to 72): start is i times 120 and the length
is the remaining duration clamped to [0, 120]. -/
def lenAt (D : ℚ) (i : ℕ) : ℚ :=
  min 120 (max 0 (D - (i : ℚ) * 120))

/-- Planned segment count (clipPipeline.ts line 58): the ceiling of
duration over 120, with a minimum of one. -/
def planCount (D : ℚ) : ℕ :=
  max 1 (⌈D / 120⌉).toNat

/-- Error column text for a failed transcode (clipPipeline.ts lines
151 to 156), keeping the structure of the first line; the appended log
path and stderr excerpt come from the external tool and are not
modelled. -/
def ffmpegErrorMsg (i total : ℕ) (code : ℤ) : String :=
  "ffmpeg failed while generating clip " ++ toString i ++ "/" ++
    toString (total - 1) ++ " (exit=" ++ toString code ++ ")."

/-- Job stderr text persisted on a failed transcode (clipPipeline.ts
line 148); the content is external ffmpeg output and is abstracted by
the segment index. -/
def transcodeFailLog (i : ℕ) : String :=
  "transcode failure log for clip " ++ toString i

/-- Loop of generateClipsForVideo over the remaining segment indices
(clipPipeline.ts lines 60 to 184), followed by the Done transition of
line 186 when the list is exhausted or the small-length break fires.
Re-read the status at each boundary and fail if it left Approved;
break when the remaining length is at most 0.01; skip a complete file,
upserting a row for it only when the store lacks one; otherwise delete
any partial file, invoke ffmpeg, and on success stat and probe the new
file, upsert its row and heartbeat the Generating state.  A thrown
metadata extraction ends the run with the state reached so far (the
exception propagates past the loop and the Done write). -/
def segLoop (env : SegEnv) (total : ℕ) (D : ℚ) :
    List ℕ → PipeState → PipeState
  | [], s => setJob s .Done none (some 0)
  | i :: rest, s =>
    let latest := env.statusAt i
    if latest ≠ .Approved then
      setJob s .Failed
        (some ("Stopped: video status changed to " ++ latest.name ++
          " during generation."))
        none
    else if lenAt D i ≤ 1 / 100 then
      setJob s .Done none (some 0)
    else if fileLooksComplete s.files i then
      if s.rows.any (fun r => r.clip_index = i) then
        segLoop env total D rest s
      else if env.probeOk i then
        let m := env.clipMeta i
        let sz : Option ℕ :=
          match s.files.lookup i with
          | some z => some z
          | none => m.file_size_bytes
        segLoop env total D rest
          { s with rows := upsertClip s.rows (rowOfMeta i m sz) }
      else s
    else
      let s1 : PipeState :=
        { s with files := fsErase s.files i
                 ffmpegCalls := s.ffmpegCalls ++ [(i, lenAt D i)] }
      if env.transcodeOk i then
        let s2 := { s1 with files := fsSet s1.files i (env.outSize i) }
        if env.probeOk i then
          let m := env.clipMeta i
          let s3 :=
            { s2 with rows := upsertClip s2.rows (rowOfMeta i m (some (env.outSize i))) }
          segLoop env total D rest (setJob s3 .Generating none none)
        else s2
      else
        let s2 := setJob s1 .Failed (some (transcodeFailLog i))
          (some (env.transcodeExit i))
        { s2 with videoError := some (ffmpegErrorMsg i total (env.transcodeExit i)) }

/-- Zero-pad a numeral to three characters, as String(i).padStart(3,
"0") does in clipPath (paths.ts). -/
def pad3 (n : ℕ) : String :=
  let s := toString n
  if s.length < 3 then String.mk (List.replicate (3 - s.length) '0') ++ s else s

/-- Canonical clip filename for an index (paths.ts, clipPath). -/
def clipName (i : ℕ) : String :=
  "clip_" ++ pad3 i ++ ".mp4"

/-- Directory entry the backfill scanner sees for a pipeline file, at
its canonical name with a succeeding stat. -/
def dirEntryOfFile (p : ℕ × ℕ) : DirEntry :=
  { name := clipName p.1, stat := some ⟨true, p.2⟩ }

/-- Probe function handed to the drift pre-pass, reading the outcome
for the parsed index from the environment; the scanner only probes
entries whose name parses. -/
def prePassProbe (env : SegEnv) : String → Option ClipMeta :=
  fun nm =>
    match parseClipIndex nm with
    | some i => if env.probeOk i then some (env.clipMeta i) else none
    | none => none

/-- Tail of generateClipsForVideo after the drift pre-pass
(clipPipeline.ts lines 57 to 186): resolve the duration, plan the
segment count and run the loop.  A thrown duration resolution (the
error case) aborts the run with the state reached so far, leaving the
job at Generating. -/
def runAfterPrePass (env : SegEnv) (duration : Except DurationError ℚ)
    (s : PipeState) : PipeState :=
  match duration with
  | .error _ => s
  | .ok D => segLoop env (planCount D) D (List.range (planCount D)) s

/-- Model of generateClipsForVideo (clipPipeline.ts lines 30 to 190)
for one video: return unchanged when the video id is already in the
in-flight set; otherwise add it, run the body, and remove it again on
the way out (the finally block).  The body returns unchanged when the
entry status is not Approved, else clears the error column, marks the
job Generating, runs the drift pre-pass when files exist but no rows
do, and continues with the segment loop.  A thrown pre-pass aborts the
run keeping the rows upserted so far. -/
def generateClipsForVideo (env : SegEnv) (duration : Except DurationError ℚ)
    (active : List String) (video_id : String) (entryStatus : VideoStatus)
    (s : PipeState) : List String × PipeState :=
  if video_id ∈ active then (active, s)
  else
    let active1 := video_id :: active
    let result : PipeState :=
      if entryStatus ≠ .Approved then s
      else
        let s1 := { s with videoError := none }
        let s2 := setJob s1 .Generating none none
        if ¬ s2.files.isEmpty ∧ s2.rows.isEmpty then
          match backfillClipMetadata (prePassProbe env)
              (s2.files.map dirEntryOfFile) s2.rows with
          | (none, rows1) => { s2 with rows := rows1 }
          | (some _, rows1) => runAfterPrePass env duration { s2 with rows := rows1 }
        else
          runAfterPrePass env duration s2
    (active1.erase video_id, result)

/-! ### Concrete sample data used by witnesses -/

/-- Empty starting state for a video with no files and no rows. -/
def cleanState : PipeState := ⟨[], [], none, none, []⟩

/-- Sample clip metadata record. -/
def sampleMeta : ClipMeta := ⟨some 120, some 30, some 1920, some 1080, some 4096⟩

/-- Environment in which every external interaction succeeds and the
status stays Approved. -/
def envOk : SegEnv :=
  ⟨fun _ => .Approved, fun _ => true, fun _ => 0, fun _ => 4096,
   fun _ => sampleMeta, fun _ => true⟩

/-- Environment like envOk except that the status read at segment one
reports Rejected (an external mid-run status change). -/
def envFlip : SegEnv :=
  ⟨fun i => if i = 1 then .Rejected else .Approved, fun _ => true, fun _ => 0,
   fun _ => 4096, fun _ => sampleMeta, fun _ => true⟩

/-! ### Canonical intermediate states of a clean segmenter run

Starting from a video with no clip files and no rows, the state after
the first j segments of a run in which every status read is Approved
and every external call succeeds is fully determined; these
definitions name it. -/

/-- Files on disk after the first j segments of a clean run. -/
def canonFiles (env : SegEnv) (j : ℕ) : List (ℕ × ℕ) :=
  (List.range j).map (fun i => (i, env.outSize i))

/-- Clip rows after the first j segments of a clean run. -/
def canonRows (env : SegEnv) (j : ℕ) : List ClipRow :=
  (List.range j).map (fun i => rowOfMeta i (env.clipMeta i) (some (env.outSize i)))

/-- Transcoder invocations during the first j segments of a clean run,
with the length passed to each. -/
def canonCalls (D : ℚ) (j : ℕ) : List (ℕ × ℚ) :=
  (List.range j).map (fun i => (i, lenAt D i))

/-- Full state after the first j segments of a clean run (the job row
holds Generating from the entry transition and the heartbeats). -/
def canonState (env : SegEnv) (D : ℚ) (j : ℕ) : PipeState :=
  ⟨canonFiles env j, canonRows env j, some ⟨.Generating, none, none⟩, none,
   canonCalls D j⟩

/-! ### Claims about the command runner and the recovery sweep -/

/-- C6: runCommand always resolves with a record carrying the full
captured stdout and stderr text, never rejecting on a nonzero exit
code (the model is a total function into CommandResult because the
promise executor only ever resolves); when the armed timeout elapses
before the child would close, the child is killed and the resolved
exit code is the sentinel 124; without a timeout kill the resolved
exit code is the close code, with a null close code read as 1. -/
theorem C6_runCommand_contract (b : ChildBehavior) (t : Option ℕ) :
    (runCommand b t).stdout = String.join b.stdoutChunks ∧
    (runCommand b t).stderr = String.join b.stderrChunks ∧
    (∀ ms, t = some ms → 0 < ms → ms < b.lifetimeMs →
      (runCommand b t).exitCode = 124) ∧
    (killedByTimeout t b = false →
      ∀ c, b.closeCode = some c →
        runCommand b t = ⟨c, String.join b.stdoutChunks, String.join b.stderrChunks⟩) := by
  refine ⟨rfl, rfl, ?_, ?_⟩
  · rintro ms rfl hms hlt
    simp [runCommand, killedByTimeout, timerArmed, Nat.pos_iff_ne_zero.mp hms, hlt]
  · intro hkill c hc
    simp [runCommand, hkill, hc]

/-- Witness for C6 at a concrete child behavior: a child that would
run for 5000 ms under a 1000 ms timeout resolves with exit code 124. -/
theorem C6_runCommand_witness :
    (runCommand ⟨["a"], ["b"], some 0, 5000⟩ (some 1000)).exitCode = 124 :=
  (C6_runCommand_contract ⟨["a"], ["b"], some 0, 5000⟩ (some 1000)).2.2.1
    1000 rfl (by decide) (by decide)

/-- C7: on the recovery sweep, every job row in state Generating whose
parsed updated_at is strictly older than the ten-minute window is
overwritten with a Failed row carrying the recovery message, and a
Generating row within the window is left untouched. -/
theorem C7_stale_job_reaping (now : ℤ) (jobs : List (Option ClipJobRow))
    (k : ℕ) (job : ClipJobRow) (u : ℤ)
    (hk : jobs[k]? = some (some job))
    (hgen : job.state = .Generating)
    (hu : job.updated_at = some u) :
    (STALE_MS < now - u →
      (recoverStaleJobs now jobs)[k]? =
        some (some ⟨.Failed, some staleMsg, none, some now⟩)) ∧
    (now - u ≤ STALE_MS →
      (recoverStaleJobs now jobs)[k]? = some (some job)) := by
  constructor
  · intro hstale
    simp only [recoverStaleJobs, List.getElem?_map, hk, Option.map_some]
    simp [recoverJob, hgen, hu, hstale]
  · intro hfresh
    simp only [recoverStaleJobs, List.getElem?_map, hk, Option.map_some]
    simp [recoverJob, hgen, hu, not_lt.mpr hfresh]

/-- Witness for C7 at a concrete sweep: with the clock at 600001 ms, a
Generating job last updated at 0 ms is reaped, and one updated at
500000 ms is untouched. -/
theorem C7_stale_job_reaping_witness :
    (recoverStaleJobs 600001 [some ⟨.Generating, none, none, some 0⟩,
        some ⟨.Generating, none, none, some 500000⟩])[0]? =
      some (some ⟨.Failed, some staleMsg, none, some 600001⟩) ∧
    (recoverStaleJobs 600001 [some ⟨.Generating, none, none, some 0⟩,
        some ⟨.Generating, none, none, some 500000⟩])[1]? =
      some (some ⟨.Generating, none, none, some 500000⟩) := by
  constructor
  · exact (C7_stale_job_reaping 600001 _ 0 ⟨.Generating, none, none, some 0⟩ 0
      rfl rfl rfl).1 (by decide)
  · exact (C7_stale_job_reaping 600001 _ 1 ⟨.Generating, none, none, some 500000⟩ 500000
      rfl rfl rfl).2 (by decide)

/-! ### Claims about the duration resolver -/

/-- C4: getDurationSeconds returns the stored duration without probing
or writing when the cached metadata yields a finite positive value; a
fresh probe that yields a positive duration has its result persisted,
so that a subsequent call is a cache hit returning the same value with
no further write; and an error outcome happens only when the cache
misses and the probe yields no positive finite duration either. -/
theorem C4_duration_resolver :
    (∀ (store : MetaStore) (d : ℚ) (probe : Option ProbedMeta),
      cachedDuration store.metadata = some d →
      getDurationSeconds store probe = (Except.ok d, store)) ∧
    (∀ (store : MetaStore) (m : ProbedMeta) (d : ℚ),
      cachedDuration store.metadata = none →
      m.duration_seconds = some d → 0 < d →
      getDurationSeconds store (some m) =
        (Except.ok d, ⟨storedMeta m, store.writes + 1⟩) ∧
      ∀ probe2, getDurationSeconds ⟨storedMeta m, store.writes + 1⟩ probe2 =
        (Except.ok d, ⟨storedMeta m, store.writes + 1⟩)) ∧
    (∀ (store : MetaStore) (probe : Option ProbedMeta) (e : DurationError)
        (st2 : MetaStore),
      getDurationSeconds store probe = (Except.error e, st2) →
      cachedDuration store.metadata = none ∧
      ¬ ∃ m d, probe = some m ∧ m.duration_seconds = some d ∧ 0 < d) := by
  refine ⟨?_, ?_, ?_⟩
  · intro store d probe hhit
    simp [getDurationSeconds, hhit]
  · intro store m d hmiss hdur hpos
    constructor
    · simp [getDurationSeconds, hmiss, hdur, not_le.mpr hpos]
    · intro probe2
      have hhit : cachedDuration (storedMeta m) = some d := by
        simp [storedMeta, hdur, cachedDuration, hpos]
      simp [getDurationSeconds, hhit]
  · intro store probe e st2 herr
    by_cases hhit : ∃ d, cachedDuration store.metadata = some d
    · obtain ⟨d, hd⟩ := hhit
      simp [getDurationSeconds, hd] at herr
    · have hmiss : cachedDuration store.metadata = none := by
        cases h : cachedDuration store.metadata with
        | none => rfl
        | some d => exact absurd ⟨d, h⟩ hhit
      refine ⟨hmiss, ?_⟩
      rintro ⟨m, d, rfl, hdur, hpos⟩
      simp [getDurationSeconds, hmiss, hdur, not_le.mpr hpos] at herr


/-- Witness for C4 at concrete stores: a cache hit returns the stored
value unchanged, and a cache miss with a successful probe persists and
then hits. -/
theorem C4_duration_resolver_witness :
    getDurationSeconds ⟨.dur 250, 0⟩ none = (Except.ok 250, ⟨.dur 250, 0⟩) ∧
    getDurationSeconds ⟨.absent, 0⟩ (some ⟨some 250, none⟩) =
      (Except.ok 250, ⟨storedMeta ⟨some 250, none⟩, 1⟩) := by
  constructor
  · exact C4_duration_resolver.1 ⟨.dur 250, 0⟩ 250 none (by decide)
  · exact (C4_duration_resolver.2.1 ⟨.absent, 0⟩ ⟨some 250, none⟩ 250
      (by decide) rfl (by decide)).1

/-- C10: when the cache misses and the fresh probe succeeds but yields
no positive duration, getDurationSeconds persists the probed metadata
before validating it, so the failing call still performs one store
write and leaves the probed record stored. -/
theorem C10_error_path_still_writes (store : MetaStore) (m : ProbedMeta)
    (hmiss : cachedDuration store.metadata = none)
    (hbad : m.duration_seconds = none ∨ ∃ d, m.duration_seconds = some d ∧ d ≤ 0) :
    getDurationSeconds store (some m) =
      (Except.error .durationUnknown, ⟨storedMeta m, store.writes + 1⟩) := by
  rcases hbad with hnone | ⟨d, hd, hle⟩
  · simp [getDurationSeconds, hmiss, hnone]
  · simp [getDurationSeconds, hmiss, hd, hle]

/-- Witness for C10 at a concrete store: an empty cache with a probe
that reports no duration errors out after writing the store once. -/
theorem C10_error_path_still_writes_witness :
    getDurationSeconds ⟨.absent, 5⟩ (some ⟨none, some "90"⟩) =
      (Except.error .durationUnknown, ⟨storedMeta ⟨none, some "90"⟩, 6⟩) :=
  C10_error_path_still_writes ⟨.absent, 5⟩ ⟨none, some "90"⟩ (by decide)
    (Or.inl rfl)

/-! ### Claim about the in-flight guard -/

/-- C8: a second invocation of generateClipsForVideo for a video id
already in the in-flight set returns immediately without modifying any
state, and on every exit path the in-flight set on the way out equals
the in-flight set on the way in (the id added at entry is always
removed by the finally block). -/
theorem C8_inflight_guard (env : SegEnv) (dur : Except DurationError ℚ)
    (active : List String) (id : String) (st : VideoStatus) (s : PipeState) :
    (id ∈ active → generateClipsForVideo env dur active id st s = (active, s)) ∧
    (generateClipsForVideo env dur active id st s).1 = active := by
  constructor
  · intro hmem
    simp [generateClipsForVideo, hmem]
  · by_cases hmem : id ∈ active
    · simp [generateClipsForVideo, hmem]
    · simp [generateClipsForVideo, hmem]

/-- Witness for C8 at a concrete in-flight set: a run for an id
already in flight is a silent no-op, and a run for a fresh id returns
the in-flight set unchanged. -/
theorem C8_inflight_guard_witness :
    generateClipsForVideo envOk (.ok 250) ["v"] "v" .Approved cleanState =
      (["v"], cleanState) ∧
    (generateClipsForVideo envOk (.ok 250) ["w"] "v" .Approved cleanState).1 = ["w"] := by
  constructor
  · exact (C8_inflight_guard envOk (.ok 250) ["v"] "v" .Approved cleanState).1
      (by decide)
  · exact (C8_inflight_guard envOk (.ok 250) ["w"] "v" .Approved cleanState).2

/-! ### Claim about frame-rate derivation -/

/-- C9: frame rate prefers the real frame-rate expression and falls
back to the average one exactly when the first parses to nothing; a
two-component rational expression yields a value exactly when both
components are finite, the denominator is nonzero and the quotient is
positive; the 30000/1001 expression yields a value close to 29.97,
while 0/0 and an absent field yield unknown (the model is total, so no
divide-by-zero fault can occur). -/
theorem C9_frame_rate :
    (∀ (s : String) (p q : List Char), s ≠ "" → splitSlash s.toList = [p, q] →
      ∀ v : ℚ, parseFraction (some s) = some v ↔
        ∃ n d, jsFiniteNumberL p = some n ∧ jsFiniteNumberL q = some d ∧
          d ≠ 0 ∧ v = n / d ∧ 0 < v) ∧
    (∀ r avg v, parseFraction r = some v → fpsOf r avg = some v) ∧
    (∀ r avg, parseFraction r = none → fpsOf r avg = parseFraction avg) ∧
    parseFraction (some "30000/1001") = some (30000 / 1001) ∧
    ((2996 : ℚ) / 100 < 30000 / 1001 ∧ (30000 : ℚ) / 1001 < 2998 / 100) ∧
    parseFraction (some "0/0") = none ∧
    fpsOf none none = none := by
  have hmain : ∀ (s : String) (p q : List Char), s ≠ "" → splitSlash s.toList = [p, q] →
      ∀ v : ℚ, parseFraction (some s) = some v ↔
        ∃ n d, jsFiniteNumberL p = some n ∧ jsFiniteNumberL q = some d ∧
          d ≠ 0 ∧ v = n / d ∧ 0 < v := by
    intro s p q hne hsplit v
    simp only [parseFraction, if_neg hne, hsplit]
    cases hp : jsFiniteNumberL p with
    | none => simp [hp]
    | some n =>
      cases hq : jsFiniteNumberL q with
      | none => simp [hq]
      | some d =>
        by_cases hd : d = 0
        · subst hd
          simp
        · by_cases hpos : 0 < n / d
          · simp only [if_neg hd, if_pos hpos, Option.some_inj]
            constructor
            · rintro rfl
              exact ⟨n, d, rfl, rfl, hd, rfl, hpos⟩
            · rintro ⟨n2, d2, hn2, hd2, _, rfl, _⟩
              cases hn2; cases hd2; rfl
          · simp only [if_neg hd, if_neg hpos]
            constructor
            · intro h
              exact absurd h (by simp)
            · rintro ⟨n2, d2, hn2, hd2, _, rfl, hpos2⟩
              cases hn2; cases hd2
              exact absurd hpos2 hpos
  refine ⟨hmain, ?_, ?_, ?_, by norm_num, ?_, rfl⟩
  · intro r avg v h
    simp [fpsOf, h]
  · intro r avg h
    simp [fpsOf, h]
  · refine (hmain "30000/1001" "30000".toList "1001".toList (by decide)
      (by decide) (30000 / 1001)).mpr ?_
    refine ⟨30000, 1001, by decide, by decide, by norm_num, rfl, by norm_num⟩
  · have h00 : splitSlash ("0/0").toList = [['0'], ['0']] := by decide
    have hz : jsFiniteNumberL ['0'] = some (0 : ℚ) := by decide
    simp only [parseFraction, if_neg (show ("0/0" : String) ≠ "" from by decide),
      h00, hz]
    simp

/-- Witness for C9: the fallback conjunct applied at concrete
expressions, a degenerate real rate falling back to the average one. -/
theorem C9_frame_rate_witness :
    fpsOf (some "0/0") (some "24/1") = parseFraction (some "24/1") :=
  C9_frame_rate.2.2.1 (some "0/0") (some "24/1") C9_frame_rate.2.2.2.2.2.1

/-! ### Claim about the backfill scanner -/

/-- Completed scans count one upsert per scanned file. -/
theorem backfillGo_counts_eq (probe : String → Option ClipMeta) :
    ∀ (es : List DirEntry) (rows : List ClipRow) (sc up : ℕ)
      (c : BackfillCounts) (rows2 : List ClipRow),
      backfillGo probe es rows sc up = (some c, rows2) → sc = up →
      c.scanned = c.upserted := by
  intro es
  induction es with
  | nil =>
    intro rows sc up c rows2 h hequ
    simp only [backfillGo, Prod.mk.injEq, Option.some_inj] at h
    rw [← h.1]
    exact hequ
  | cons e rest ih =>
    intro rows sc up c rows2 h hequ
    cases hpi : parseClipIndex e.name with
    | none =>
      simp only [backfillGo, hpi] at h
      exact ih rows sc up c rows2 h hequ
    | some idx =>
      cases hst : e.stat with
      | none =>
        simp only [backfillGo, hpi, hst] at h
        exact ih rows sc up c rows2 h hequ
      | some st =>
        by_cases hskip : ¬ st.isFile = true ∨ st.size ≤ 1024
        · simp only [backfillGo, hpi, hst] at h
          rw [if_pos hskip] at h
          exact ih rows sc up c rows2 h hequ
        · simp only [backfillGo, hpi, hst] at h
          rw [if_neg hskip] at h
          cases hpr : probe e.name with
          | none =>
            simp only [hpr] at h
            simp at h
          | some m =>
            simp only [hpr] at h
            exact ih _ (sc + 1) (up + 1) c rows2 h (by omega)

/-- Key uniqueness of the upsert: the new row is present afterwards
and is the only row at its clip index. -/
theorem upsertClip_overwrites (rows : List ClipRow) (r : ClipRow) :
    r ∈ upsertClip rows r ∧
    ∀ x ∈ upsertClip rows r, x.clip_index = r.clip_index → x = r := by
  by_cases hany : rows.any (fun x => x.clip_index = r.clip_index) = true
  · constructor
    · obtain ⟨y, hy, hkey⟩ := List.any_eq_true.mp hany
      have hkey2 : y.clip_index = r.clip_index := of_decide_eq_true hkey
      simp only [upsertClip, if_pos hany]
      exact List.mem_map.mpr ⟨y, hy, by simp [hkey2]⟩
    · intro x hx hxkey
      simp only [upsertClip, if_pos hany] at hx
      obtain ⟨y, hy, hyx⟩ := List.mem_map.mp hx
      by_cases hyk : y.clip_index = r.clip_index
      · rw [if_pos hyk] at hyx
        exact hyx.symm
      · rw [if_neg hyk] at hyx
        rw [← hyx] at hxkey
        exact absurd hxkey hyk
  · constructor
    · simp [upsertClip, hany]
    · intro x hx hxkey
      simp only [upsertClip, if_neg hany] at hx
      rcases List.mem_append.mp hx with hin | hone
      · have hall : ∀ y ∈ rows, ¬ y.clip_index = r.clip_index := by
          simpa using hany
        exact absurd hxkey (hall x hin)
      · simpa using hone

/-- C5: the backfill scan considers exactly the files whose name
matches the three-digit clip pattern; it skips unreadable entries
(throwing stat), non-files and files at or below the 1024-byte
threshold, continuing the scan; each remaining file contributes one
upsert keyed by its parsed index, overwriting any stale row; a missing
clips directory is read as an empty listing (getClipsDir creates it)
and yields zero counts without aborting; and a completed scan reports
scanned equal to upserted. -/
theorem C5_backfill_scanner (probe : String → Option ClipMeta) :
    (∀ entries rows c rows2,
      backfillClipMetadata probe entries rows = (some c, rows2) →
      c.scanned = c.upserted) ∧
    (∀ e rest rows sc up, parseClipIndex e.name = none →
      backfillGo probe (e :: rest) rows sc up = backfillGo probe rest rows sc up) ∧
    (∀ e rest rows sc up idx, parseClipIndex e.name = some idx → e.stat = none →
      backfillGo probe (e :: rest) rows sc up = backfillGo probe rest rows sc up) ∧
    (∀ e rest rows sc up idx st, parseClipIndex e.name = some idx →
      e.stat = some st → (¬ st.isFile = true ∨ st.size ≤ 1024) →
      backfillGo probe (e :: rest) rows sc up = backfillGo probe rest rows sc up) ∧
    (∀ e rest rows sc up idx st m, parseClipIndex e.name = some idx →
      e.stat = some st → st.isFile = true → 1024 < st.size → probe e.name = some m →
      backfillGo probe (e :: rest) rows sc up =
        backfillGo probe rest (upsertClip rows (rowOfMeta idx m (some st.size)))
          (sc + 1) (up + 1)) ∧
    (∀ rows, backfillClipMetadata probe [] rows = (some ⟨0, 0⟩, rows)) ∧
    (∀ rows r, r ∈ upsertClip rows r ∧
      ∀ x ∈ upsertClip rows r, x.clip_index = r.clip_index → x = r) := by
  refine ⟨?_, ?_, ?_, ?_, ?_, ?_, upsertClip_overwrites⟩
  · intro entries rows c rows2 h
    exact backfillGo_counts_eq probe entries rows 0 0 c rows2 h rfl
  · intro e rest rows sc up hpi
    simp only [backfillGo, hpi]
  · intro e rest rows sc up idx hpi hst
    simp only [backfillGo, hpi, hst]
  · intro e rest rows sc up idx st hpi hst hskip
    simp only [backfillGo, hpi, hst]
    rw [if_pos hskip]
  · intro e rest rows sc up idx st m hpi hst hfile hsz hpr
    simp only [backfillGo, hpi, hst, hpr]
    rw [if_neg (by simp [hfile, not_le.mpr hsz])]
  · intro rows
    rfl

/-- Witness for C5 at a concrete listing: one valid non-trivial file,
one oddly named file and one unreadable file yield counts one and one
and a single row at the parsed index, and the unreadable entry alone
is skipped without aborting. -/
theorem C5_backfill_scanner_witness :
    backfillClipMetadata (fun _ => some sampleMeta)
      [⟨"clip_002.mp4", some ⟨true, 4096⟩⟩, ⟨"clip_9.mp4", some ⟨true, 4096⟩⟩,
       ⟨"clip_003.mp4", none⟩] [] =
      (some ⟨1, 1⟩, [rowOfMeta 2 sampleMeta (some 4096)]) ∧
    backfillGo (fun _ => some sampleMeta) [⟨"clip_003.mp4", none⟩] [] 0 0 =
      backfillGo (fun _ => some sampleMeta) [] [] 0 0 := by
  constructor
  · decide
  · exact (C5_backfill_scanner (fun _ => some sampleMeta)).2.2.1
      ⟨"clip_003.mp4", none⟩ [] [] 0 0 3 (by decide) rfl

/-! ### Structure of clean runs -/

/-- A lookup misses an association list none of whose keys equal the
looked-up key. -/
theorem lookup_none_of_keys {β : Type} (i : ℕ) :
    ∀ l : List (ℕ × β), (∀ p ∈ l, p.1 ≠ i) → l.lookup i = none := by
  intro l
  induction l with
  | nil => intro _; rfl
  | cons p t ih =>
    intro h
    obtain ⟨k, v⟩ := p
    have hk : k ≠ i := h (k, v) (by simp)
    have hbeq : (i == k) = false := beq_eq_false_iff_ne.mpr (fun he => hk he.symm)
    simp only [List.lookup, hbeq]
    exact ih (fun q hq => h q (by simp [hq]))

/-- Every key of the canonical file list is below its bound. -/
theorem canonFiles_key_lt (env : SegEnv) (j : ℕ) :
    ∀ p ∈ canonFiles env j, p.1 < j := by
  intro p hp
  obtain ⟨i, hi, rfl⟩ := List.mem_map.mp hp
  simpa using List.mem_range.mp hi

/-- Indices at or beyond the bound have no canonical file yet. -/
theorem canonFiles_lookup_none (env : SegEnv) {j i : ℕ} (h : j ≤ i) :
    (canonFiles env j).lookup i = none :=
  lookup_none_of_keys i (canonFiles env j)
    (fun p hp => Nat.ne_of_lt (lt_of_lt_of_le (canonFiles_key_lt env j p hp) h))

/-- Indices at or beyond the bound fail the completeness check on the
canonical files. -/
theorem fileLooksComplete_canon (env : SegEnv) {j i : ℕ} (h : j ≤ i) :
    fileLooksComplete (canonFiles env j) i = false := by
  rw [fileLooksComplete, canonFiles_lookup_none env h]

/-- Unlinking the next index leaves the canonical files unchanged. -/
theorem fsErase_canon (env : SegEnv) (j : ℕ) :
    fsErase (canonFiles env j) j = canonFiles env j := by
  rw [fsErase]
  apply List.filter_eq_self.mpr
  intro p hp
  exact decide_eq_true (Nat.ne_of_lt (canonFiles_key_lt env j p hp))

/-- Writing the next output file extends the canonical files by one. -/
theorem fsSet_canon (env : SegEnv) (j : ℕ) :
    fsSet (canonFiles env j) j (env.outSize j) = canonFiles env (j + 1) := by
  have hany : (canonFiles env j).any (fun p => p.1 = j) = false := by
    apply List.any_eq_false.mpr
    intro p hp
    simpa using Nat.ne_of_lt (canonFiles_key_lt env j p hp)
  rw [fsSet, if_neg (by simp [hany])]
  rw [canonFiles, canonFiles, List.range_succ, List.map_append]
  rfl

/-- Every clip index of the canonical rows is below its bound. -/
theorem canonRows_key_lt (env : SegEnv) (j : ℕ) :
    ∀ r ∈ canonRows env j, r.clip_index < j := by
  intro r hr
  obtain ⟨i, hi, rfl⟩ := List.mem_map.mp hr
  simpa [rowOfMeta] using List.mem_range.mp hi

/-- Indices at or beyond the bound have no canonical row yet. -/
theorem canonRows_any_false (env : SegEnv) {j i : ℕ} (h : j ≤ i) :
    (canonRows env j).any (fun r => r.clip_index = i) = false := by
  apply List.any_eq_false.mpr
  intro r hr
  have := canonRows_key_lt env j r hr
  simp only [decide_eq_true_eq]
  omega

/-- Upserting a row whose key is absent appends it. -/
theorem upsertClip_snoc (rows : List ClipRow) (r : ClipRow)
    (h : rows.any (fun x => x.clip_index = r.clip_index) = false) :
    upsertClip rows r = rows ++ [r] := by
  rw [upsertClip, if_neg (by simp [h])]

/-- Upserting the next canonical row extends the canonical rows by
one. -/
theorem upsert_canonRows (env : SegEnv) (j : ℕ) :
    upsertClip (canonRows env j)
        (rowOfMeta j (env.clipMeta j) (some (env.outSize j))) =
      canonRows env (j + 1) := by
  rw [upsertClip_snoc]
  · rw [canonRows, canonRows, List.range_succ, List.map_append]
    simp
  · exact canonRows_any_false env (le_refl j)

/-- One more transcoder invocation extends the canonical call list. -/
theorem canonCalls_snoc (D : ℚ) (j : ℕ) :
    canonCalls D j ++ [(j, lenAt D j)] = canonCalls D (j + 1) := by
  rw [canonCalls, canonCalls, List.range_succ, List.map_append]
  simp

/-! ### Arithmetic of the segment plan -/

/-- The planned count is at least one. -/
theorem planCount_pos (D : ℚ) : 1 ≤ planCount D :=
  le_max_left 1 _

/-- For a positive duration the planned count N satisfies
120 (N - 1) < D and D is at most 120 N. -/
theorem planCount_bounds (D : ℚ) (hD : 0 < D) :
    120 * ((planCount D : ℚ) - 1) < D ∧ D ≤ 120 * (planCount D : ℚ) := by
  have h120 : (0 : ℚ) < 120 := by norm_num
  have hpos : (0 : ℚ) < D / 120 := div_pos hD h120
  have hceil : 0 < ⌈D / 120⌉ := Int.ceil_pos.mpr hpos
  have hplan : planCount D = (⌈D / 120⌉).toNat := by
    rw [planCount]
    omega
  have hcast : ((planCount D : ℕ) : ℚ) = ((⌈D / 120⌉ : ℤ) : ℚ) := by
    rw [hplan]
    exact_mod_cast Int.toNat_of_nonneg (le_of_lt hceil)
  constructor
  · have h1 : ((⌈D / 120⌉ : ℤ) : ℚ) < D / 120 + 1 := Int.ceil_lt_add_one (D / 120)
    rw [hcast]
    have h2 : (D / 120) * 120 = D := by field_simp
    nlinarith
  · have h1 : D / 120 ≤ ((⌈D / 120⌉ : ℤ) : ℚ) := Int.le_ceil (D / 120)
    rw [hcast]
    have h2 : (D / 120) * 120 = D := by field_simp
    nlinarith

/-- Every segment before the last of the plan has length exactly 120. -/
theorem lenAt_before_last (D : ℚ) (hD : 0 < D) {i : ℕ}
    (hi : i < planCount D - 1) : lenAt D i = 120 := by
  obtain ⟨hlow, _⟩ := planCount_bounds D hD
  have h1 : 1 ≤ planCount D := planCount_pos D
  have h2 : (i : ℚ) + 2 ≤ (planCount D : ℚ) := by
    have : i + 2 ≤ planCount D := by omega
    exact_mod_cast this
  have hge : (120 : ℚ) ≤ D - (i : ℚ) * 120 := by nlinarith
  rw [lenAt, max_eq_right (by linarith), min_eq_left hge]

/-- The last planned segment has length D - 120 (N - 1), a value in
the half-open interval from zero exclusive to 120 inclusive. -/
theorem lenAt_last (D : ℚ) (hD : 0 < D) :
    lenAt D (planCount D - 1) = D - ((planCount D : ℚ) - 1) * 120 ∧
    0 < D - ((planCount D : ℚ) - 1) * 120 ∧
    D - ((planCount D : ℚ) - 1) * 120 ≤ 120 := by
  obtain ⟨hlow, hhigh⟩ := planCount_bounds D hD
  have h1 : 1 ≤ planCount D := planCount_pos D
  have hcast : ((planCount D - 1 : ℕ) : ℚ) = (planCount D : ℚ) - 1 := by
    push_cast [h1]
    ring
  have hx0 : 0 < D - ((planCount D : ℚ) - 1) * 120 := by nlinarith
  have hx120 : D - ((planCount D : ℚ) - 1) * 120 ≤ 120 := by nlinarith
  refine ⟨?_, hx0, hx120⟩
  rw [lenAt, hcast, max_eq_right (le_of_lt hx0), min_eq_right hx120]

/-! ### The segment loop on canonical states -/

/-- Stepping lemma: over a window of indices in which every status
read is Approved, every transcode and probe succeeds and every planned
length exceeds the small-length threshold, the loop advances the
canonical state across the whole window. -/
theorem segLoop_canon_steps (env : SegEnv) (total : ℕ) (D : ℚ) :
    ∀ (k j : ℕ) (tail : List ℕ),
      (∀ i, j ≤ i → i < j + k →
        env.statusAt i = .Approved ∧ env.transcodeOk i = true ∧
        env.probeOk i = true ∧ 1 / 100 < lenAt D i) →
      segLoop env total D (List.range' j k ++ tail) (canonState env D j) =
        segLoop env total D tail (canonState env D (j + k)) := by
  intro k
  induction k with
  | zero =>
    intro j tail _
    rfl
  | succ k ih =>
    intro j tail hgood
    obtain ⟨h1, h2, h3, h4⟩ := hgood j (le_refl j) (by omega)
    have hcons : List.range' j (k + 1) ++ tail = j :: (List.range' (j + 1) k ++ tail) := by
      rw [List.range'_succ]
      rfl
    rw [hcons]
    simp only [segLoop, canonState]
    rw [if_neg (by simp [h1])]
    rw [if_neg (not_le.mpr h4)]
    rw [fileLooksComplete_canon env (le_refl j)]
    simp only [Bool.false_eq_true, if_false]
    rw [fsErase_canon env j]
    rw [h2]
    simp only [if_true]
    rw [fsSet_canon env j]
    rw [h3]
    simp only [if_true]
    rw [upsert_canonRows env j]
    rw [canonCalls_snoc D j]
    simp only [setJob]
    have hstep := ih (j + 1) tail
      (fun i hi1 hi2 => hgood i (by omega) (by omega))
    simp only [canonState] at hstep
    have hjk : j + 1 + k = j + (k + 1) := by omega
    rw [hjk] at hstep
    exact hstep

/-- Skipping lemma: when every index of the remaining window whose
planned length exceeds the threshold already has a complete file and a
row, and every status read is Approved, the loop changes nothing and
ends in Done. -/
theorem segLoop_skip_all (env : SegEnv) (total : ℕ) (D : ℚ) (s : PipeState) :
    ∀ (k j : ℕ),
      (∀ i, j ≤ i → i < j + k → env.statusAt i = .Approved) →
      (∀ i, j ≤ i → i < j + k → 1 / 100 < lenAt D i →
        fileLooksComplete s.files i = true ∧
        s.rows.any (fun r => r.clip_index = i) = true) →
      segLoop env total D (List.range' j k) s = setJob s .Done none (some 0) := by
  intro k
  induction k with
  | zero =>
    intro j _ _
    rfl
  | succ k ih =>
    intro j hst hskip
    rw [List.range'_succ]
    simp only [segLoop]
    rw [if_neg (by simp [hst j (le_refl j) (by omega)])]
    by_cases hlen : lenAt D j ≤ 1 / 100
    · rw [if_pos hlen]
    · rw [if_neg hlen]
      obtain ⟨hfc, hrow⟩ := hskip j (le_refl j) (by omega) (not_le.mp hlen)
      rw [hfc]
      simp only [if_true]
      rw [hrow]
      simp only [if_true]
      exact ih (j + 1)
        (fun i hi1 hi2 => hst i (by omega) (by omega))
        (fun i hi1 hi2 => hskip i (by omega) (by omega))

/-- Entry lemma for a clean start: from the empty state with an
Approved entry read, the run reaches the segment loop over the full
plan in the initial canonical state. -/
theorem generate_clean_entry (env : SegEnv) (D : ℚ) (id : String) :
    (generateClipsForVideo env (.ok D) [] id .Approved cleanState).2 =
      segLoop env (planCount D) D (List.range (planCount D))
        (canonState env D 0) := by
  simp only [generateClipsForVideo, List.not_mem_nil, if_false, cleanState]
  simp only [List.isEmpty_nil, not_true_eq_false, false_and, if_false,
    runAfterPrePass]
  rfl

/-- Entry lemma without the drift pre-pass: when the state has no
files or has at least one row, the run reaches the segment loop over
the full plan with only the error column cleared and the job marked
Generating. -/
theorem generate_entry_no_prepass (env : SegEnv) (D : ℚ) (id : String)
    (s : PipeState) (hpre : s.files = [] ∨ s.rows ≠ []) :
    (generateClipsForVideo env (.ok D) [] id .Approved s).2 =
      segLoop env (planCount D) D (List.range (planCount D))
        { s with videoError := none, job := some ⟨.Generating, none, none⟩ } := by
  simp only [generateClipsForVideo, List.not_mem_nil, if_false]
  rw [if_neg (by simp)]
  rw [if_neg ?hc]
  case hc =>
    rcases hpre with h | h
    · intro hcontra
      exact hcontra.1 (by simp [setJob, h])
    · intro hcontra
      exact h (List.isEmpty_iff.mp hcontra.2)
  rfl

/-- Splitting the full index range of a plan at an inner position. -/
theorem range_split (N j : ℕ) (h : j ≤ N) :
    List.range N = List.range' 0 j ++ List.range' j (N - j) := by
  have happ := List.range'_append 0 j (N - j) 1
  simp only [Nat.zero_add, Nat.one_mul] at happ
  rw [List.range_eq_range']
  conv_lhs => rw [show N = N - j + j by omega]
  exact happ.symm

/-- C1 (amended): for a finite positive resolved duration D the plan
has N equal to the ceiling of D over 120 with a minimum of one; every
segment before the last is transcoded with length exactly 120 and the
last planned length is D - 120 (N - 1), always positive and at most
120; when that last length exceeds the 0.01 second threshold a clean
run transcodes exactly the segments zero through N - 1 with those
lengths and ends Done with exactly those N clips on disk; when the
last planned length is at most the threshold, the loop stops early and
the run produces exactly the first N - 1 clips. -/
theorem C1_segmentation_plan (env : SegEnv) (D : ℚ) (id : String) (hD : 0 < D)
    (happr : ∀ i, env.statusAt i = .Approved)
    (hok : ∀ i, env.transcodeOk i = true)
    (hprobe : ∀ i, env.probeOk i = true) :
    (∀ i, i < planCount D - 1 → lenAt D i = 120) ∧
    (lenAt D (planCount D - 1) = D - ((planCount D : ℚ) - 1) * 120 ∧
      0 < D - ((planCount D : ℚ) - 1) * 120 ∧
      D - ((planCount D : ℚ) - 1) * 120 ≤ 120) ∧
    (1 / 100 < D - ((planCount D : ℚ) - 1) * 120 →
      (generateClipsForVideo env (.ok D) [] id .Approved cleanState).2 =
        ⟨canonFiles env (planCount D), canonRows env (planCount D),
         some ⟨.Done, none, some 0⟩, none, canonCalls D (planCount D)⟩) ∧
    (D - ((planCount D : ℚ) - 1) * 120 ≤ 1 / 100 →
      (generateClipsForVideo env (.ok D) [] id .Approved cleanState).2 =
        ⟨canonFiles env (planCount D - 1), canonRows env (planCount D - 1),
         some ⟨.Done, none, some 0⟩, none, canonCalls D (planCount D - 1)⟩) := by
  have hlast := lenAt_last D hD
  refine ⟨fun i hi => lenAt_before_last D hD hi, hlast, ?_, ?_⟩
  · intro hthresh
    rw [generate_clean_entry env D id]
    rw [show List.range (planCount D) = List.range' 0 (planCount D) ++ [] by
      rw [List.range_eq_range', List.append_nil]]
    rw [segLoop_canon_steps env (planCount D) D (planCount D) 0 [] ?hgood]
    case hgood =>
      intro i _ hiN
      refine ⟨happr i, hok i, hprobe i, ?_⟩
      rcases Nat.lt_or_ge i (planCount D - 1) with hlt | hge
      · rw [lenAt_before_last D hD hlt]
        norm_num
      · rw [show i = planCount D - 1 by omega, hlast.1]
        exact hthresh
    simp only [Nat.zero_add, segLoop, canonState, setJob]
  · intro hthresh
    rw [generate_clean_entry env D id]
    have hN : 1 ≤ planCount D := planCount_pos D
    rw [show List.range (planCount D) =
        List.range' 0 (planCount D - 1) ++ [planCount D - 1] by
      conv_lhs => rw [show planCount D = (planCount D - 1) + 1 by omega]
      rw [List.range_succ, List.range_eq_range']]
    rw [segLoop_canon_steps env (planCount D) D (planCount D - 1) 0
      [planCount D - 1] ?hgood2]
    case hgood2 =>
      intro i _ hiN
      refine ⟨happr i, hok i, hprobe i, ?_⟩
      rw [lenAt_before_last D hD (by omega)]
      norm_num
    simp only [Nat.zero_add, segLoop, canonState]
    rw [if_neg (by simp [happr (planCount D - 1)])]
    rw [if_pos (by rw [hlast.1]; exact hthresh)]
    simp only [setJob]

/-- Counterexample to C1 as stated: at the positive duration 1/200 of
a second the plan is one segment, yet a clean run invokes the
transcoder for no segment and leaves no clip file on disk (the
small-length break fires before segment zero), so the run does not
produce N clips. -/
theorem C1_segmentation_counterexample :
    planCount (1 / 200) = 1 ∧
    (generateClipsForVideo envOk (.ok (1 / 200)) [] "v" .Approved
      cleanState).2.ffmpegCalls = [] ∧
    (generateClipsForVideo envOk (.ok (1 / 200)) [] "v" .Approved
      cleanState).2.files = [] := by
  have hplan : planCount ((1 : ℚ) / 200) = 1 := by
    rw [planCount, show ⌈((1 : ℚ) / 200) / 120⌉ = 1 from by
      rw [Int.ceil_eq_iff]
      norm_num]
    rfl
  have hrun : (generateClipsForVideo envOk (.ok (1 / 200)) [] "v" .Approved
      cleanState).2 = setJob (canonState envOk (1 / 200) 0) .Done none (some 0) := by
    rw [generate_clean_entry envOk (1 / 200) "v", hplan]
    rw [show List.range 1 = [0] from rfl]
    simp only [segLoop, canonState]
    rw [if_neg (by simp [envOk])]
    rw [if_pos (by rw [lenAt]; norm_num [min_def, max_def])]
  exact ⟨hplan, by rw [hrun]; rfl, by rw [hrun]; rfl⟩

/-- Witness for C1 at the 250 second end-to-end scenario: the plan is
three segments and a clean run produces exactly clips zero, one and
two, ending Done. -/
theorem C1_segmentation_plan_witness :
    (generateClipsForVideo envOk (.ok 250) [] "v" .Approved cleanState).2 =
      ⟨canonFiles envOk (planCount 250), canonRows envOk (planCount 250),
       some ⟨.Done, none, some 0⟩, none, canonCalls 250 (planCount 250)⟩ := by
  have hplan : planCount (250 : ℚ) = 3 := by
    rw [planCount, show ⌈(250 : ℚ) / 120⌉ = 3 from by
      rw [Int.ceil_eq_iff]
      norm_num]
    rfl
  apply (C1_segmentation_plan envOk 250 "v" (by norm_num)
    (fun _ => rfl) (fun _ => rfl) (fun _ => rfl)).2.2.1
  rw [hplan]
  norm_num

/-- C2: a second run on the same unchanged approved video - every
planned segment already has a file above the non-trivial size
threshold and a row in the store - transcodes no segment, leaves the
files and rows untouched (each segment is skipped by the idempotency
check), and ends with the job Done; the only state changes are the
cleared error column and the job row. -/
theorem C2_idempotent_second_run (env : SegEnv) (D : ℚ) (s : PipeState)
    (id : String)
    (happr : ∀ i, env.statusAt i = .Approved)
    (hpre : s.files = [] ∨ s.rows ≠ [])
    (hdone : ∀ i, i < planCount D → 1 / 100 < lenAt D i →
      fileLooksComplete s.files i = true ∧
      s.rows.any (fun r => r.clip_index = i) = true) :
    (generateClipsForVideo env (.ok D) [] id .Approved s).2 =
      { s with videoError := none, job := some ⟨.Done, none, some 0⟩ } ∧
    (generateClipsForVideo env (.ok D) [] id .Approved s).2.files = s.files ∧
    (generateClipsForVideo env (.ok D) [] id .Approved s).2.rows = s.rows ∧
    (generateClipsForVideo env (.ok D) [] id .Approved s).2.ffmpegCalls =
      s.ffmpegCalls := by
  have hmain : (generateClipsForVideo env (.ok D) [] id .Approved s).2 =
      { s with videoError := none, job := some ⟨.Done, none, some 0⟩ } := by
    rw [generate_entry_no_prepass env D id s hpre]
    rw [List.range_eq_range']
    rw [segLoop_skip_all env (planCount D) D
      { s with videoError := none, job := some ⟨.Generating, none, none⟩ }
      (planCount D) 0 (fun i _ _ => happr i)
      (fun i _ hiN hlen => hdone i (by omega) hlen)]
    rfl
  exact ⟨hmain, by rw [hmain], by rw [hmain], by rw [hmain]⟩

/-- Witness for C2 at a concrete completed 250 second video: files and
rows for clips zero, one and two are present and non-trivial, and the
second run changes neither files nor rows nor the call log. -/
theorem C2_idempotent_second_run_witness :
    (generateClipsForVideo envOk (.ok 250) [] "v" .Approved
        ⟨[(0, 4096), (1, 4096), (2, 4096)],
         [rowOfMeta 0 sampleMeta (some 4096), rowOfMeta 1 sampleMeta (some 4096),
          rowOfMeta 2 sampleMeta (some 4096)],
         some ⟨.Done, none, some 0⟩, none, []⟩).2 =
      ⟨[(0, 4096), (1, 4096), (2, 4096)],
       [rowOfMeta 0 sampleMeta (some 4096), rowOfMeta 1 sampleMeta (some 4096),
        rowOfMeta 2 sampleMeta (some 4096)],
       some ⟨.Done, none, some 0⟩, none, []⟩ := by
  have hplan : planCount (250 : ℚ) = 3 := by
    rw [planCount, show ⌈(250 : ℚ) / 120⌉ = 3 from by
      rw [Int.ceil_eq_iff]
      norm_num]
    rfl
  have h := (C2_idempotent_second_run envOk 250
    ⟨[(0, 4096), (1, 4096), (2, 4096)],
     [rowOfMeta 0 sampleMeta (some 4096), rowOfMeta 1 sampleMeta (some 4096),
      rowOfMeta 2 sampleMeta (some 4096)],
     some ⟨.Done, none, some 0⟩, none, []⟩ "v"
    (fun _ => rfl) (Or.inr (by simp)) ?hdone).1
  case hdone =>
    intro i hi _
    rw [hplan] at hi
    interval_cases i
    · exact ⟨by decide, by decide⟩
    · exact ⟨by decide, by decide⟩
    · exact ⟨by decide, by decide⟩
  exact h

/-- C3: during a run the status is re-read before each segment; if the
read at segment j reports a status other than Approved while all
earlier reads reported Approved and all earlier external calls
succeeded, the run ends with the job Failed carrying the descriptive
stop message, exactly the segments before j transcoded, and the files
of those earlier segments still on disk. -/
theorem C3_midrun_status_change (env : SegEnv) (D : ℚ) (j : ℕ) (id : String)
    (hD : 0 < D) (hj : j < planCount D)
    (happr : ∀ i, i < j → env.statusAt i = .Approved)
    (hbad : env.statusAt j ≠ .Approved)
    (hok : ∀ i, i < j → env.transcodeOk i = true)
    (hprobe : ∀ i, i < j → env.probeOk i = true) :
    (generateClipsForVideo env (.ok D) [] id .Approved cleanState).2 =
      ⟨canonFiles env j, canonRows env j,
       some ⟨.Failed,
         some ("Stopped: video status changed to " ++ (env.statusAt j).name ++
           " during generation."), none⟩,
       none, canonCalls D j⟩ := by
  rw [generate_clean_entry env D id]
  rw [range_split (planCount D) j (le_of_lt hj)]
  rw [segLoop_canon_steps env (planCount D) D j 0 (List.range' j (planCount D - j))
    ?hgood]
  case hgood =>
    intro i _ hij
    refine ⟨happr i (by omega), hok i (by omega), hprobe i (by omega), ?_⟩
    rw [lenAt_before_last D hD (by omega)]
    norm_num
  simp only [Nat.zero_add]
  rw [show planCount D - j = (planCount D - j - 1) + 1 by omega]
  rw [List.range'_succ]
  simp only [segLoop, canonState]
  rw [if_pos hbad]
  simp only [setJob]

/-- Witness for C3 at a concrete run: with the status read flipping to
Rejected at segment one of a 250 second video, the run fails with the
stop message, has transcoded only segment zero, and segment zero file
remains on disk. -/
theorem C3_midrun_status_change_witness :
    (generateClipsForVideo envFlip (.ok 250) [] "v" .Approved cleanState).2 =
      ⟨canonFiles envFlip 1, canonRows envFlip 1,
       some ⟨.Failed,
         some ("Stopped: video status changed to " ++ (envFlip.statusAt 1).name ++
           " during generation."), none⟩,
       none, canonCalls 250 1⟩ := by
  have hplan : planCount (250 : ℚ) = 3 := by
    rw [planCount, show ⌈(250 : ℚ) / 120⌉ = 3 from by
      rw [Int.ceil_eq_iff]
      norm_num]
    rfl
  exact C3_midrun_status_change envFlip 250 1 "v" (by norm_num)
    (by rw [hplan]; omega)
    (fun i hi => by interval_cases i; rfl)
    (by decide) (fun i _ => rfl) (fun i _ => rfl)

end Relling
